import Mathlib

/-!
Verification of the RAG-Edtech ingestion-and-query pipeline against its
natural-language specification.

The development shallowly embeds the Python source:

* `Title`    — `DoclingParser._extract_title_from_content`
  (src/services/document-processor/parsers/docling_parser.py)
* `Upload`   — the new-document branch of `upload_content`
  (src/services/document-processor/main.py)
* `Worker`   — `EmbeddingWorker._process_message`
  (src/services/vectorization/workers/embedding_worker.py),
  once as a state transformer (idempotence) and once as an
  interleaving model of its three external effects (completion event)
* `Cache`    — `ResponseCache` (src/services/rag-query/cache/redis_cache.py)
  and the cache interaction of `RAGPipeline.process_query`
  (src/services/rag-query/pipeline/rag_pipeline.py)
* `GlobalQ`  — the namespace-selection logic of `global_chat_complete`
  (src/services/rag-query/main.py) over `filter_accessible_docs` /
  `get_completed_docs_for_search` (src/services/rag-query/access_control.py)
* `Diversify` — `GlobalQueryService._diversify`
  (src/services/rag-query/pipeline/global_query_service.py)

Python strings are modelled as `List Char`; machine text operations
(`strip`, `split('\n')`, `replace`, slicing) are re-implemented
character by character so that every definition evaluates inside the
kernel.
-/

/-- Association-list lookup (used to model Redis keyspaces, the vector
index, and per-delivery snapshots). -/
def alookup {α β : Type} [DecidableEq α] (k : α) : List (α × β) → Option β
  | [] => none
  | (k', v) :: rest => if k' = k then some v else alookup k rest

/-- Association-list upsert: replace the binding of `k` if present,
append it otherwise. -/
def aupsert {α β : Type} [DecidableEq α] (k : α) (v : β) :
    List (α × β) → List (α × β)
  | [] => [(k, v)]
  | (k', v') :: rest => if k' = k then (k, v) :: rest else (k', v') :: aupsert k v rest

namespace Title

/-- Python `str`, modelled as a list of characters. -/
abbrev Str := List Char

/-- Whitespace recognised by `str.strip()` (the characters relevant to
document content: space, tab, newline, carriage return). -/
def isWS (c : Char) : Bool :=
  c = ' ' || c = '\t' || c = '\n' || c = '\r'

/-- Python `s.strip()`: remove leading and trailing whitespace. -/
def pyStrip (s : Str) : Str :=
  ((s.dropWhile isWS).reverse.dropWhile isWS).reverse

/-- Python `s.split('\n')`: split on every newline, keeping empty pieces.
`"".split('\n') == [""]`. -/
def splitLines : Str → List Str
  | [] => [[]]
  | c :: rest =>
    if c = '\n' then [] :: splitLines rest
    else
      match splitLines rest with
      | [] => [[c]]
      | l :: ls => (c :: l) :: ls

/-- Python `line.startswith('# ')`. -/
def startsWithHashSpace : Str → Bool
  | '#' :: ' ' :: _ => true
  | _ => false

/-- Python `line.replace('# ', '')`: delete every (left-to-right,
non-overlapping) occurrence of the two-character substring `"# "`. -/
def replaceHashSpace : Str → Str
  | '#' :: ' ' :: rest => replaceHashSpace rest
  | c :: rest => c :: replaceHashSpace rest
  | [] => []

/-- The fallback title. -/
def untitled : Str := "Untitled Document".toList

/-- The scan of `DoclingParser._extract_title_from_content` over the list
of lines: for each line in order, after `line.strip()`, a line starting
with `'# '` returns `line.replace('# ', '').strip()`; otherwise a
non-empty line returns `line[:100]`; an empty line is skipped. -/
def extractTitleLoop : List Str → Str
  | [] => untitled
  | l :: ls =>
    let line := pyStrip l
    if startsWithHashSpace line then pyStrip (replaceHashSpace line)
    else if line.isEmpty then extractTitleLoop ls
    else line.take 100

/-- Source `DoclingParser._extract_title_from_content`: split the stripped
content into lines and scan them. -/
def extractTitleFromContent (content : Str) : Str :=
  extractTitleLoop (splitLines (pyStrip content))

/-- The title function as claim C7 words it: the text of the first
`#`-prefixed heading if one occurs anywhere in the content, else the
first non-empty line truncated to 100 characters, else
"Untitled Document". -/
def claimTitle (content : Str) : Str :=
  let lines := (splitLines (pyStrip content)).map pyStrip
  match lines.find? startsWithHashSpace with
  | some h => pyStrip (replaceHashSpace h)
  | none =>
    match lines.find? (fun l => !l.isEmpty) with
    | some l => l.take 100
    | none => untitled

/-- The title function as amended: the first non-empty (stripped) line
alone decides — if it starts with `'# '` its heading text is the title,
otherwise it is truncated to 100 characters; with no non-empty line the
title is "Untitled Document". -/
def amendedTitle (content : Str) : Str :=
  match ((splitLines (pyStrip content)).map pyStrip).find? (fun l => !l.isEmpty) with
  | none => untitled
  | some l =>
    if startsWithHashSpace l then pyStrip (replaceHashSpace l)
    else l.take 100

end Title

namespace Upload

/-- Document status as stored in the metadata record. -/
inductive DocStatus where
  | processing
  | completed
  | failed
  deriving DecidableEq, Repr

/-- The fields of the `ContentMetadata` record that the empty-document
claim is about. -/
structure Record where
  status : DocStatus
  totalChunks : Nat
  processedChunks : Nat
  deriving DecidableEq, Repr

/-- A chunk-embed job message (one per chunk), as published by
`rabbitmq_publisher.publish_chunks`. -/
structure ChunkJob where
  chunkIndex : Nat
  deriving DecidableEq, Repr

/-- The record-creation step of `upload_content`
(src/services/document-processor/main.py, lines 424-470), run only after
chunking succeeded: the record is always created with
`status="processing"`, `total_chunks=len(chunks)` and no processed
chunks, and one queue message is published per chunk (each carrying its
0-based chunk index). -/
def uploadNewDocument {α : Type} (chunks : List α) : Record × List ChunkJob :=
  ({ status := DocStatus.processing
     totalChunks := chunks.length
     processedChunks := 0 },
   (List.range chunks.length).map (fun i => { chunkIndex := i }))

end Upload

namespace Chunking

/-- One chunk in the standard format built by
`DoclingChunker.chunk_document`: the contextualized text and its token
count (the `raw_text` and metadata fields play no role in the
zero-chunk control flow). -/
structure DoclingChunk where
  text : Title.Str
  tokenCount : Nat
  deriving DecidableEq

/-- The body of `DoclingChunker.chunk_document`
(src/services/document-processor/chunking/docling_chunker.py, lines
98-157), taking as input the chunk list the external
`DoclingHybridChunker` produced (converted 1-1 by the loop at lines
112-140): the success log line then computes
`sum(c['token_count'] for c in chunks) / len(chunks)` — when the
external chunker yielded zero chunks this divides by zero, and the
resulting `ZeroDivisionError` is caught by the surrounding handler
(line 149) and re-raised as `ChunkingError`.  The raise is the `error`
outcome; a zero-chunk run therefore never returns a chunk list. -/
def doclingChunkDocument (chunks : List DoclingChunk) : Except Unit (List DoclingChunk) :=
  if chunks.length = 0 then Except.error () else Except.ok chunks

/-- A chunk built by `TokenBasedChunker._chunk_section`: text and token
count (the section metadata plays no role here). -/
structure TokenChunk where
  text : Title.Str
  tokenCount : Nat
  deriving DecidableEq

/-- One line of `DoclingParser._extract_structure_from_content`
(src/services/document-processor/parsers/docling_parser.py, lines
188-202): after `line.strip()`, a line is a heading when it starts with
`#` and matches `^(#+)\s+(.+)$` — one or more hashes, at least one
whitespace character, then a non-empty title (taken after the
whitespace run and stripped).  Since the stripped line cannot end in
whitespace, the remainder after the hashes is all the regex needs. -/
def headingOf (line : Title.Str) : Option (Nat × Title.Str) :=
  let t := Title.pyStrip line
  match t with
  | '#' :: _ =>
    let hashes := t.takeWhile (fun c => c == '#')
    let rest := t.dropWhile (fun c => c == '#')
    match rest with
    | c :: _ =>
      if Title.isWS c then
        some (hashes.length, Title.pyStrip (rest.dropWhile Title.isWS))
      else none
    | [] => none
  | _ => none

/-- `DoclingParser._extract_structure_from_content`: the heading records
(level, title) of every heading line, in order (the recorded line
offsets are dropped).  Empty content has a single empty line and hence
no headings. -/
def extractStructureFromContent (content : Title.Str) : List (Nat × Title.Str) :=
  (Title.splitLines content).filterMap headingOf

/-- The overlapping-window loop of `TokenBasedChunker._chunk_section`
(`while start < len(tokens)`, token_based_chunker.py lines 164-186),
written on the remaining token suffix: each round takes `chunk_size`
tokens, decodes them (`decode` models the tokenizer's decode), and
advances by `step = chunk_size - chunk_overlap`.  Fuel-indexed because
the Python loop never terminates when the step is zero. -/
def windowLoop (decode : List Nat → Title.Str) (chunkSize step : Nat) :
    Nat → List Nat → List TokenChunk
  | 0, _ => []
  | _, [] => []
  | fuel + 1, t :: ts =>
    { text := decode ((t :: ts).take chunkSize)
      tokenCount := ((t :: ts).take chunkSize).length } ::
      windowLoop decode chunkSize step fuel ((t :: ts).drop step)

/-- `TokenBasedChunker._chunk_section` (token_based_chunker.py, lines
145-186): encode the section content (`encode` models the tokenizer);
a section whose token count fits `chunk_size` is returned as a single
chunk — in particular a section that encodes to zero tokens yields ONE
chunk, never zero — and a larger section is sliced into overlapping
windows. -/
def chunkSection (encode : Title.Str → List Nat) (decode : List Nat → Title.Str)
    (chunkSize step fuel : Nat) (content : Title.Str) : List TokenChunk :=
  let tokens := encode content
  if tokens.length ≤ chunkSize then [{ text := content, tokenCount := tokens.length }]
  else windowLoop decode chunkSize step fuel tokens

/-- The `structure == []` path of `TokenBasedChunker.chunk_document`
(token_based_chunker.py, lines 38-107): when the parser extracted no
headings, `_split_by_structure` returns the whole content as the single
"Main Content" section, and the chunk list is that section's
`_chunk_section` result.  (The heading-splitting branch is taken only
when `extractStructureFromContent` found headings, hence never for
empty content, and lies outside this model.) -/
def tokenChunkDocumentNoHeadings (encode : Title.Str → List Nat)
    (decode : List Nat → Title.Str) (chunkSize step fuel : Nat)
    (content : Title.Str) : List TokenChunk :=
  chunkSection encode decode chunkSize step fuel content

/-- The chunk-then-create order of `upload_content`
(src/services/document-processor/main.py): `chunker.chunk_document`
runs at line 336 and the `ContentMetadata` record is inserted only at
line 451, so a `ChunkingError` aborts the request before any record
exists (the failure handler's `status = "failed"` update at lines
538-541 matches no document, and the handler re-raises); a successful
chunking creates the processing record of `Upload.uploadNewDocument`. -/
def uploadOutcome {α : Type} (chunksResult : Except Unit (List α)) :
    Except Unit (Upload.Record × List Upload.ChunkJob) :=
  match chunksResult with
  | Except.error e => Except.error e
  | Except.ok chunks => Except.ok (Upload.uploadNewDocument chunks)

end Chunking

namespace Worker

/-- A chunk-job message as consumed by `EmbeddingWorker._process_message`:
`{content_id, chunk_index, text, token_count}`.  Identifiers are opaque;
they are modelled as naturals. -/
structure ChunkMsg where
  contentId : Nat
  chunkIndex : Nat
  text : List Char
  tokenCount : Nat

/-- The metadata stored with a vector: chunk fields with `text`
truncated to the index metadata limit (40000 characters). -/
structure VectorMeta where
  contentId : Nat
  chunkIndex : Nat
  text : List Char
  tokenCount : Nat
  deriving DecidableEq

/-- One record of the vector index: embedding plus metadata. -/
structure VectorRecord where
  embedding : List Int
  meta : VectorMeta
  deriving DecidableEq

/-- The state `_process_message` mutates for one document: the
document's vector-index namespace (keyed by vector-id
`{content_id}_{chunk_index}`, modelled as the pair) and the document's
`processed_chunks` counter. -/
structure VState where
  vectors : List ((Nat × Nat) × VectorRecord)
  counter : Nat

/-- Source `EmbeddingWorker._process_message`
(src/services/vectorization/workers/embedding_worker.py): embed the
chunk text (`embed` models the embedder backend as a deterministic
function), upsert `(vector_id, embedding, metadata)` under the
document's namespace, and unconditionally `$inc` the document's
`processed_chunks` by one.  No record of already-processed chunk
indices is kept. -/
def processMessage (embed : List Char → List Int) (m : ChunkMsg) (s : VState) : VState :=
  let meta : VectorMeta :=
    { contentId := m.contentId
      chunkIndex := m.chunkIndex
      text := m.text.take 40000
      tokenCount := m.tokenCount }
  { vectors := aupsert (m.contentId, m.chunkIndex)
      { embedding := embed m.text, meta := meta } s.vectors
    counter := s.counter + 1 }

/-- An empty per-document state (fresh namespace, zero processed). -/
def emptyV : VState := { vectors := [], counter := 0 }

end Worker

namespace WorkerSched

/-- The three external effects of one delivery `d` in
`EmbeddingWorker._process_message`, in program order:
`increment` is the atomic `find_one_and_update` (`$inc processed_chunks`
returning the updated document — the delivery's snapshot);
`setCompleted` is the conditional
`update_one({status ≠ completed}, {$set status = completed})`;
`publishCompleted` is the Redis publish of the final completed event.
`setCompleted` and `publishCompleted` are both guarded (in the worker's
local control flow) by the snapshot read at `increment`. -/
inductive Act where
  | increment (d : Nat)
  | setCompleted (d : Nat)
  | publishCompleted (d : Nat)
  deriving DecidableEq

/-- Shared document state plus bookkeeping: the chunk counter, whether
`status = completed`, how many `setCompleted` writes actually changed
the status, how many completed events were published, and each
delivery's snapshot `(processed_chunks after its increment, status at
that instant)`. -/
structure SState where
  counter : Nat
  statusCompleted : Bool
  effectiveSets : Nat
  completionEvents : Nat
  snaps : List (Nat × (Nat × Bool))
  deriving DecidableEq

/-- The worker's local guard `processed >= total and status != 'completed'`,
evaluated on delivery `d`'s snapshot. -/
def snapGuard (total : Nat) (s : SState) (d : Nat) : Bool :=
  match alookup d s.snaps with
  | some (c, st) => decide (total ≤ c) && !st
  | none => false

/-- One atomic step of the interleaved execution. -/
def stepAct (total : Nat) (s : SState) : Act → SState
  | .increment d =>
    let c := s.counter + 1
    { s with counter := c, snaps := (d, (c, s.statusCompleted)) :: s.snaps }
  | .setCompleted d =>
    if snapGuard total s d then
      if s.statusCompleted then s
      else { s with statusCompleted := true, effectiveSets := s.effectiveSets + 1 }
    else s
  | .publishCompleted d =>
    if snapGuard total s d then
      { s with completionEvents := s.completionEvents + 1 }
    else s

/-- Run a schedule (an interleaving of deliveries' steps). -/
def run (total : Nat) (acts : List Act) (s : SState) : SState :=
  acts.foldl (stepAct total) s

/-- Initial document state: nothing processed, status `processing`. -/
def initState : SState :=
  { counter := 0, statusCompleted := false, effectiveSets := 0
    completionEvents := 0, snaps := [] }

/-- The serial schedule: deliveries `0, …, n-1` one after the other,
each running its three steps to completion before the next starts. -/
def serialSchedule : Nat → List Act
  | 0 => []
  | n + 1 => serialSchedule n ++
      [Act.increment n, Act.setCompleted n, Act.publishCompleted n]

/-- An interleaving of two deliveries of chunk jobs for a document with
`total_chunks = 1` (a re-delivered message): both increments land before
either delivery reaches its conditional status update. -/
def raceSchedule : List Act :=
  [Act.increment 0, Act.increment 1,
   Act.setCompleted 0, Act.publishCompleted 0,
   Act.setCompleted 1, Act.publishCompleted 1]

end WorkerSched

namespace Cache

/-- Cache keys: `(content_id, SHA-256 of the lowercased question)`.  The
hash is modelled by an opaque natural (injective stand-in); the claims
never depend on the hash value itself. -/
abbrev QKey := Nat × Nat

/-- A cached response value (`{"response": …, "metadata": …, "cached": true}`);
only the response body is relevant to the claims. -/
structure Entry where
  response : String
  deriving DecidableEq

/-- The Redis keyspaces owned by `ResponseCache`: the
`rag_frequency:{cid}:{hash}` counters and the `rag_cache:{cid}:{hash}`
entries. -/
structure CState where
  freq : List (QKey × Nat)
  cache : List (QKey × Entry)
  deriving DecidableEq

/-- Fresh Redis state. -/
def emptyState : CState := { freq := [], cache := [] }

/-- Source `ResponseCache.get_question_frequency`: read the counter, 0 when
absent. -/
def getQuestionFrequency (s : CState) (k : QKey) : Nat :=
  (alookup k s.freq).getD 0

/-- Source `ResponseCache.should_use_cache`: frequency ≥ threshold. -/
def shouldUseCache (threshold : Nat) (s : CState) (k : QKey) : Bool :=
  threshold ≤ getQuestionFrequency s k

/-- Source `ResponseCache.increment_question_frequency`: increment the counter
and return the updated count.  Defined faithfully to the source — but,
as claim C1 records, no code path of the query pipeline ever calls it. -/
def incrementQuestionFrequency (s : CState) (k : QKey) : Nat × CState :=
  let n := getQuestionFrequency s k + 1
  (n, { s with freq := aupsert k n s.freq })

/-- Source `ResponseCache.get_cached_response`: `None` unless the frequency
threshold is met; otherwise the stored entry (or `None` on miss). -/
def getCachedResponse (threshold : Nat) (s : CState) (k : QKey) : Option Entry :=
  if shouldUseCache threshold s k then alookup k s.cache else none

/-- Source `ResponseCache.cache_response`: write the entry only when the
frequency threshold is met; otherwise return without writing. -/
def cacheResponse (threshold : Nat) (s : CState) (k : QKey) (response : String) : CState :=
  if shouldUseCache threshold s k then
    { s with cache := aupsert k { response := response } s.cache }
  else s

/-- The deterministic explanatory message returned when the namespace
holds no vectors (text abridged; its content plays no role in the cache
behaviour). -/
def noVectorsMessage : String :=
  "I do not have searchable content for this document yet."

/-- The outcome of one query: the answer body and the `cached` flag of
the response. -/
structure QueryResult where
  response : String
  cached : Bool
  deriving DecidableEq

/-- The cache interaction of `RAGPipeline.process_query`
(src/services/rag-query/pipeline/rag_pipeline.py), for a question that
passes validation: check `get_cached_response` (a hit is returned with
`cached = true`); otherwise embed, retrieve (`hasChunks` abstracts
whether the namespace returned chunks), on no chunks return the
explanatory message; otherwise generate `answer` via the LLM, and if the
safety check passes (`safe`) call `cache_response`.  The pipeline never
calls `increment_question_frequency`. -/
def processQueryOnce (threshold : Nat) (k : QKey) (hasChunks safe : Bool)
    (answer : String) (s : CState) : QueryResult × CState :=
  match getCachedResponse threshold s k with
  | some e => ({ response := e.response, cached := true }, s)
  | none =>
    if hasChunks then
      let s' := if safe then cacheResponse threshold s k answer else s
      ({ response := answer, cached := false }, s')
    else
      ({ response := noVectorsMessage, cached := false }, s)

/-- Ask the same question `n` times in sequence, collecting the
`cached` flags. -/
def askRepeatedly (threshold : Nat) (k : QKey) (hasChunks safe : Bool)
    (answer : String) : Nat → CState → List Bool × CState
  | 0, s => ([], s)
  | n + 1, s =>
    let (r, s') := processQueryOnce threshold k hasChunks safe answer s
    let (flags, s'') := askRepeatedly threshold k hasChunks safe answer n s'
    (r.cached :: flags, s'')

end Cache

namespace CacheF

/-! Source `ResponseCache` over a fallible Redis backend.  Each backend call is
represented by its outcome: `Except.error ()` for a raised exception,
`Except.ok v` for a normal return.  The functions below are the source's
`try/except` bodies; that they are total Lean functions is exactly the
property that no backend failure propagates. -/

/-- Source `ResponseCache.get_question_frequency` with its internal
`try/except`: a raised `get` yields 0, an absent key yields 0. -/
def freqOfGet : Except Unit (Option Nat) → Nat
  | .error _ => 0
  | .ok none => 0
  | .ok (some n) => n

/-- Source `ResponseCache.should_use_cache` over the backend outcome. -/
def shouldUseCacheF (threshold : Nat) (freqRes : Except Unit (Option Nat)) : Bool :=
  threshold ≤ freqOfGet freqRes

/-- Source `ResponseCache.get_cached_response`: frequency gate first, then
`get_json`; a raised `get_json` is caught by the outer handler and
yields `None`. -/
def getCachedResponseF (threshold : Nat) (freqRes : Except Unit (Option Nat))
    (getJsonRes : Except Unit (Option Cache.Entry)) : Option Cache.Entry :=
  if shouldUseCacheF threshold freqRes then
    match getJsonRes with
    | .error _ => none
    | .ok r => r
  else none

/-- Source `ResponseCache.increment_question_frequency`: `incr`, then `expire`
when the new count is 1; any raise is caught and 0 is returned. -/
def incrementQuestionFrequencyF (incrRes : Except Unit Nat)
    (expireRes : Except Unit Unit) : Nat :=
  match incrRes with
  | .error _ => 0
  | .ok count =>
    if count = 1 then
      match expireRes with
      | .error _ => 0
      | .ok _ => count
    else count

/-- Source `ResponseCache.cache_response`: frequency gate first, then
`set_json`; the result is the entry written (`none` = nothing written).
A raised `set_json` is caught and nothing is written. -/
def cacheResponseF (threshold : Nat) (freqRes : Except Unit (Option Nat))
    (setRes : Except Unit Unit) (response : String) : Option Cache.Entry :=
  if shouldUseCacheF threshold freqRes then
    match setRes with
    | .error _ => none
    | .ok _ => some { response := response }
  else none

end CacheF

namespace GlobalQ

/-- The observable routing of `global_chat_complete`
(src/services/rag-query/main.py): either an error/early return with no
retrieval, a delegation to the per-document pipeline for one namespace,
or the multi-namespace `GlobalQueryService` path over a list of
namespaces. -/
inductive Outcome where
  | noAccessible
  | stillProcessing
  | perDocument (cid : Nat)
  | multiNamespace (ns : List Nat)
  deriving DecidableEq

/-- The namespace-selection logic of `global_chat_complete`.
`selected` is the caller-supplied `selected_doc_ids` (empty = none
supplied); `acc` is membership in the caller's accessible set
(`filter_accessible_docs` keeps exactly the selected ids in that set);
`comp` is document completion (`get_completed_docs_for_search`);
`allAccessible` is `get_user_accessible_docs` for the no-selection
branch.  Control flow, in source order: 404 when no accessible ids; the
still-processing message when no completed ids; then — for ANY
non-empty selection (`len(selected_ids) >= 1`) — delegation to
`rag_pipeline.process_query` on the raw first selected id (deliberately
not re-checked against the filtered list); otherwise
`GlobalQueryService.run` over the accessible completed ids. -/
def globalOutcome (selected : List Nat) (acc comp : Nat → Bool)
    (allAccessible : List Nat) : Outcome :=
  let accessibleIds := if selected.isEmpty then allAccessible else selected.filter acc
  let docIds := accessibleIds.filter comp
  if accessibleIds.isEmpty then Outcome.noAccessible
  else if docIds.isEmpty then Outcome.stillProcessing
  else
    match selected with
    | [] => Outcome.multiNamespace docIds
    | c :: _ => Outcome.perDocument c

/-- The vector-index namespaces actually queried for each outcome: the
per-document pipeline queries exactly its content-id's namespace; the
multi-namespace path queries each of `doc_ids` (both in `search_global`
and in its per-document fallback); the early returns query nothing. -/
def queriedNamespaces : Outcome → List Nat
  | Outcome.perDocument c => [c]
  | Outcome.multiNamespace ns => ns
  | _ => []

/-- Whether the outcome is the delegation to the per-document flow. -/
def isPerDocument : Outcome → Bool
  | Outcome.perDocument _ => true
  | _ => false

end GlobalQ

namespace Diversify

/-- A retrieved scored chunk, reduced to the fields `_diversify` reads:
the `content_id` in its metadata, plus a tag distinguishing chunks of
the same document (chunks arrive sorted by score descending, so list
order encodes score order). -/
abbrev RChunk := Nat × Nat

/-- Add one chunk to the insertion-ordered grouping
(`by_doc.setdefault(doc_id, []).append(match)`). -/
def addToGroup : List (Nat × List RChunk) → RChunk → List (Nat × List RChunk)
  | [], c => [(c.1, [c])]
  | (k, g) :: rest, c =>
    if k = c.1 then (k, g ++ [c]) :: rest else (k, g) :: addToGroup rest c

/-- The grouping pass of `GlobalQueryService._diversify`: namespaces in
first-occurrence order, each group in input order. -/
def groupByDoc (results : List RChunk) : List (Nat × List RChunk) :=
  results.foldl addToGroup []

/-- Python `len([m for m in diverse if m.metadata.get('content_id') == doc_id])`. -/
def countDoc (d : Nat) (l : List RChunk) : Nat :=
  (l.filter (fun c => c.1 == d)).length

/-- Python `any(by_doc.values())`: some namespace still holds chunks. -/
def anyNonempty (byDoc : List (Nat × List RChunk)) : Bool :=
  byDoc.any (fun p => !p.2.isEmpty)

/-- One pass of the `for doc_id, matches in list(by_doc.items())` loop:
iterate namespaces in order; skip an exhausted namespace; when the
namespace's count in `diverse` is below `maxPerDoc`, pop its first
remaining chunk; once `diverse` reaches `maxTotal` the pass breaks,
leaving the remaining namespaces untouched. -/
def innerPass (maxPerDoc maxTotal : Nat) :
    List (Nat × List RChunk) → List RChunk → List (Nat × List RChunk) × List RChunk
  | [], diverse => ([], diverse)
  | (k, g) :: rest, diverse =>
    if maxTotal ≤ diverse.length then ((k, g) :: rest, diverse)
    else
      match g with
      | [] =>
        let (rest', d') := innerPass maxPerDoc maxTotal rest diverse
        ((k, []) :: rest', d')
      | c :: gs =>
        if countDoc k diverse < maxPerDoc then
          let (rest', d') := innerPass maxPerDoc maxTotal rest (diverse ++ [c])
          ((k, gs) :: rest', d')
        else
          let (rest', d') := innerPass maxPerDoc maxTotal rest diverse
          ((k, g) :: rest', d')

/-- The `while len(diverse) < max_total and any(by_doc.values())` loop of
`GlobalQueryService._diversify`, indexed by fuel because the source loop
has no other bound (the sibling copy in main.py carries a
`round_num > 10` safety break; this one does not): `none` means the
fuel ran out — each extra unit of fuel re-runs one more pass. -/
def diversifyFuel (maxPerDoc maxTotal : Nat) :
    Nat → List (Nat × List RChunk) → List RChunk → Option (List RChunk)
  | 0, _, _ => none
  | n + 1, byDoc, diverse =>
    if diverse.length < maxTotal then
      if anyNonempty byDoc then
        let (byDoc', d') := innerPass maxPerDoc maxTotal byDoc diverse
        diversifyFuel maxPerDoc maxTotal n byDoc' d'
      else some (diverse.take maxTotal)
    else some (diverse.take maxTotal)

/-- Source `GlobalQueryService._diversify` on a result list: group by document,
run the loop, return `diverse[:max_total]` (when the loop exits). -/
def diversify (maxPerDoc maxTotal fuel : Nat) (results : List RChunk) :
    Option (List RChunk) :=
  diversifyFuel maxPerDoc maxTotal fuel (groupByDoc results) []

/-- Three namespaces with three matching chunks each: after two passes
every namespace is at the per-document cap while only six of eight
slots are filled. -/
def hangThree : List RChunk :=
  [(0, 0), (0, 1), (0, 2), (1, 0), (1, 1), (1, 2), (2, 0), (2, 1), (2, 2)]

/-- Two namespaces with three chunks each: the cap is reached at four of
eight slots with chunks remaining. -/
def hangTwo : List RChunk :=
  [(0, 0), (0, 1), (0, 2), (1, 0), (1, 1), (1, 2)]

/-- Every chunk sits in the group of its own `content_id` — the
invariant `groupByDoc` establishes. -/
def coherent (byDoc : List (Nat × List RChunk)) : Prop :=
  ∀ p ∈ byDoc, ∀ c ∈ p.2, c.1 = p.1

end Diversify

/-! ## Helper lemmas -/

lemma aupsert_idem {α β : Type} [DecidableEq α] (k : α) (v : β) (l : List (α × β)) :
    aupsert k v (aupsert k v l) = aupsert k v l := by
  induction l with
  | nil => simp [aupsert]
  | cons p rest ih =>
    obtain ⟨k', v'⟩ := p
    by_cases h : k' = k
    · simp [aupsert, h]
    · simp [aupsert, h, ih]

namespace Title

lemma startsWithHashSpace_not_empty {l : Str} (h : startsWithHashSpace l = true) :
    l.isEmpty = false := by
  cases l with
  | nil => simp [startsWithHashSpace] at h
  | cons c rest => simp [List.isEmpty]

lemma extractTitleLoop_eq_amended (ls : List Str) :
    extractTitleLoop ls =
      match (ls.map pyStrip).find? (fun l => !l.isEmpty) with
      | none => untitled
      | some l =>
        if startsWithHashSpace l then pyStrip (replaceHashSpace l)
        else l.take 100 := by
  induction ls with
  | nil => simp [extractTitleLoop]
  | cons l ls ih =>
    by_cases hh : startsWithHashSpace (pyStrip l) = true
    · have hne := startsWithHashSpace_not_empty hh
      simp [extractTitleLoop, hh, List.find?, hne]
    · by_cases he : (pyStrip l).isEmpty = true
      · have hh' : startsWithHashSpace (pyStrip l) = false := by
          simp at hh; exact hh
        simp [extractTitleLoop, hh', he, List.find?, ih]
      · have hh' : startsWithHashSpace (pyStrip l) = false := by
          simp at hh; exact hh
        have he' : (pyStrip l).isEmpty = false := by
          simp only [Bool.not_eq_true] at he; exact he
        simp [extractTitleLoop, hh', he', List.find?]

end Title

/-! ## Claim theorems -/

/-- C7, counterexample.  On the content `"intro\n# Real Title"` a
`#`-prefixed heading is present in the content, so the claim demands the
title `"Real Title"`; the code returns the first non-empty line
`"intro"` instead.  `claimTitle` is the rule exactly as the claim words
it. -/
theorem C7_counterexample :
    Title.extractTitleFromContent "intro\n# Real Title".toList = "intro".toList ∧
    Title.claimTitle "intro\n# Real Title".toList = "Real Title".toList ∧
    "intro".toList ≠ "Real Title".toList := by
  refine ⟨by decide, by decide, by decide⟩

/-- C7, amended.  For every content string the extracted title is decided
by the first non-empty stripped line alone: if that line starts with
`'# '` the title is the line with every `"# "` occurrence removed and
stripped; otherwise the line truncated to 100 characters; with no
non-empty line the title is `"Untitled Document"`.  A heading that
appears after an earlier non-empty line does not win. -/
theorem C7_title_from_first_nonempty_line (content : Title.Str) :
    Title.extractTitleFromContent content = Title.amendedTitle content := by
  unfold Title.extractTitleFromContent Title.amendedTitle
  exact Title.extractTitleLoop_eq_amended (Title.splitLines (Title.pyStrip content))

/-- C6.  Evaluation at the claim's empty-document input, tracing the
actual mechanism: no execution creates the zero-chunk completed record
the claim describes.  (i) Chunking runs before the record is inserted,
and under the default `docling` strategy a zero-chunk result — what an
empty document yields — raises `ChunkingError` (division by
`len(chunks) = 0` in the success log), so the upload aborts with NO
record created at all.  (ii) Empty content has no extracted headings,
and (iii) under the `token_based` strategy a section encoding to no
tokens is returned as exactly ONE chunk — zero chunks never reach
record creation.  (iv) When a record is created, its status is always
`processing`, never `completed`. -/
theorem C6_empty_document_never_zero_chunk_completed_record :
    (Chunking.uploadOutcome (Chunking.doclingChunkDocument []) = Except.error ()) ∧
    (Chunking.extractStructureFromContent [] = []) ∧
    (∀ (encode : Title.Str → List Nat) (decode : List Nat → Title.Str)
        (chunkSize step fuel : Nat),
        encode [] = [] →
        Chunking.tokenChunkDocumentNoHeadings encode decode chunkSize step fuel [] =
          [{ text := [], tokenCount := 0 }]) ∧
    (∀ chunks : List Chunking.TokenChunk,
        (Upload.uploadNewDocument chunks).1.status = Upload.DocStatus.processing) := by
  refine ⟨rfl, rfl, ?_, fun chunks => rfl⟩
  intro encode decode chunkSize step fuel h
  simp [Chunking.tokenChunkDocumentNoHeadings, Chunking.chunkSection, h]

/-- C6, witness: the token-path conjunct applied to a concrete
tokenizer stand-in that encodes the empty string to no tokens, at the
configured chunk size 512 and step 462. -/
theorem C6_witness :
    Chunking.tokenChunkDocumentNoHeadings (fun _ => []) (fun _ => []) 512 462 1000 [] =
      [{ text := [], tokenCount := 0 }] :=
  C6_empty_document_never_zero_chunk_completed_record.2.2.1
    (fun _ => []) (fun _ => []) 512 462 1000 rfl

/-- C4, counterexample.  Processing the same chunk-job message twice
from a fresh state leaves the `processed_chunks` counter at 2: the
increment is unconditional per delivery, not "at most once per logical
chunk" as the claim states. -/
theorem C4_counterexample :
    ¬ ((Worker.processMessage (fun _ => [1]) ⟨7, 3, ['a'], 1⟩
          (Worker.processMessage (fun _ => [1]) ⟨7, 3, ['a'], 1⟩ Worker.emptyV)).counter
        ≤ Worker.emptyV.counter + 1) := by decide

/-- C4, amended.  Re-delivery of the same chunk-job message leaves the
vector index in the same final state (same vector-id, same metadata:
the upsert is idempotent under the vector-id), but it increments the
document's `processed_chunks` once per delivery — so twice across the
two deliveries, not at most once per logical chunk. -/
theorem C4_redelivery_index_idempotent_counter_double
    (embed : List Char → List Int) (m : Worker.ChunkMsg) (s : Worker.VState) :
    (Worker.processMessage embed m (Worker.processMessage embed m s)).vectors =
      (Worker.processMessage embed m s).vectors ∧
    (Worker.processMessage embed m (Worker.processMessage embed m s)).counter =
      s.counter + 2 := by
  refine ⟨?_, rfl⟩
  simp only [Worker.processMessage]
  exact aupsert_idem _ _ _

/-- C2, counterexample.  Caller-supplied selection `[0, 1]` where only
document 1 is accessible and completed: the accessible, completed
subset of the selection is `[1]`, yet the pipeline delegates to the
per-document flow on the raw first selected id and queries namespace 0,
which is not in that subset. -/
theorem C2_counterexample :
    GlobalQ.queriedNamespaces
        (GlobalQ.globalOutcome [0, 1] (fun d => d == 1) (fun d => d == 1) []) = [0] ∧
    (([0, 1].filter (fun d => d == 1)).filter (fun d => d == 1)) = [1] ∧
    (0 : Nat) ∉ ([1] : List Nat) := by
  refine ⟨by decide, by decide, by decide⟩

/-- C2, amended.  For a global query with a caller-supplied (non-empty)
selected document-id list, retrieval proceeds only when the accessible,
completed subset of the selection is non-empty, and then exactly one
namespace is queried: the raw first selected id, which is deliberately
not re-checked against that subset; when the subset is empty no
namespace is queried at all. -/
theorem C2_selected_query_first_id_unchecked
    (c : Nat) (rest : List Nat) (acc comp : Nat → Bool) (allAccessible : List Nat) :
    GlobalQ.queriedNamespaces (GlobalQ.globalOutcome (c :: rest) acc comp allAccessible) =
      (if (((c :: rest).filter acc).filter comp).isEmpty then [] else [c]) := by
  unfold GlobalQ.globalOutcome
  dsimp only
  cases hFA : (c :: rest).filter acc with
  | nil => simp [GlobalQ.queriedNamespaces]
  | cons a as =>
    cases hFC : (a :: as).filter comp with
    | nil => simp [GlobalQ.queriedNamespaces, hFC]
    | cons b bs => simp [GlobalQ.queriedNamespaces, hFC]

/-- C3, counterexample.  Two ids explicitly selected, both accessible
and completed: the claim requires the multi-namespace
retrieval-merge-diversify path, but the code delegates to the
per-document flow on the first selected id. -/
theorem C3_counterexample :
    GlobalQ.globalOutcome [0, 1] (fun _ => true) (fun _ => true) [] =
      GlobalQ.Outcome.perDocument 0 ∧
    ([0, 1] : List Nat).length = 2 := by
  refine ⟨by decide, by decide⟩

/-- C3, amended.  The delegation to the per-document flow happens if and
only if at least one document id was explicitly selected and the
selection's accessible, completed subset is non-empty (so delegation is
not fully independent of accessibility: at least one selected id must
be accessible and completed, though the delegated id itself is the raw
first selected one).  The multi-namespace path runs only when no id
was selected. -/
theorem C3_delegation_iff_nonempty_selection
    (selected : List Nat) (acc comp : Nat → Bool) (allAccessible : List Nat) :
    GlobalQ.isPerDocument (GlobalQ.globalOutcome selected acc comp allAccessible) =
      (!selected.isEmpty && !((selected.filter acc).filter comp).isEmpty) := by
  cases selected with
  | nil =>
    unfold GlobalQ.globalOutcome
    dsimp only
    simp only [List.isEmpty_nil, Bool.not_true, Bool.false_and]
    split
    next =>
      split
      · rfl
      · split
        · rfl
        · rfl
    next h => exact absurd trivial h
  | cons c rest =>
    unfold GlobalQ.globalOutcome
    dsimp only
    cases hFA : (c :: rest).filter acc with
    | nil => simp [GlobalQ.isPerDocument]
    | cons a as =>
      cases hFC : (a :: as).filter comp with
      | nil => simp [GlobalQ.isPerDocument, hFC]
      | cons b bs => simp [GlobalQ.isPerDocument, hFC]

namespace Cache

lemma processQueryOnce_fresh (k : QKey) (hasChunks safe : Bool) (answer : String) :
    processQueryOnce 5 k hasChunks safe answer emptyState =
      ({ response := if hasChunks then answer else noVectorsMessage, cached := false },
       emptyState) := by
  have hfreq : getQuestionFrequency emptyState k = 0 := by
    simp [getQuestionFrequency, emptyState, alookup]
  have hshould : shouldUseCache 5 emptyState k = false := by
    simp [shouldUseCache, hfreq]
  have hget : getCachedResponse 5 emptyState k = none := by
    simp [getCachedResponse, hshould]
  have hwrite : cacheResponse 5 emptyState k answer = emptyState := by
    simp [cacheResponse, hshould]
  cases hasChunks <;> cases safe <;>
    simp [processQueryOnce, hget, hwrite]

end Cache

/-- C1.  Evaluation of the pipeline's cache behaviour at the claim's
failing input: no code path of `RAGPipeline.process_query` (or of the
whole rag-query service) ever calls
`ResponseCache.increment_question_frequency`, so the frequency counter
stays absent, the gate `frequency ≥ threshold` never opens, no cache
entry is ever written, and every ask — the fifth and the sixth included
— returns `cached = false` with the Redis state unchanged.  The claim's
scenario (fifth ask writes an entry, sixth returns `cached = true`)
never occurs. -/
theorem C1_frequency_never_incremented_no_cache
    (n : Nat) (k : Cache.QKey) (hasChunks safe : Bool) (answer : String) :
    Cache.askRepeatedly 5 k hasChunks safe answer n Cache.emptyState =
      (List.replicate n false, Cache.emptyState) := by
  induction n with
  | zero => rfl
  | succ n ih =>
    simp [Cache.askRepeatedly, Cache.processQueryOnce_fresh, ih, List.replicate_succ]

/-- C10.  No failure of the cache backend escapes `ResponseCache`
(every function below is total — the `try/except` bodies are modelled
exactly), and the fallbacks are as claimed: a raised frequency read
(with any positive threshold) or a raised `get_json` makes
`get_cached_response` return `None` (a cache miss, so the query falls
through to retrieval and generation); a raised `incr` (or a raised
`expire` after the first increment) makes
`increment_question_frequency` return 0; a raised frequency read or a
raised `set_json` makes `cache_response` return normally with nothing
written. -/
theorem C10_cache_failures_contained :
    (∀ (threshold : Nat) (getJsonRes : Except Unit (Option Cache.Entry)),
        1 ≤ threshold →
        CacheF.getCachedResponseF threshold (Except.error ()) getJsonRes = none) ∧
    (∀ (threshold : Nat) (freqRes : Except Unit (Option Nat)),
        CacheF.getCachedResponseF threshold freqRes (Except.error ()) = none) ∧
    (∀ (expireRes : Except Unit Unit),
        CacheF.incrementQuestionFrequencyF (Except.error ()) expireRes = 0) ∧
    (CacheF.incrementQuestionFrequencyF (Except.ok 1) (Except.error ()) = 0) ∧
    (∀ (threshold : Nat) (setRes : Except Unit Unit) (response : String),
        1 ≤ threshold →
        CacheF.cacheResponseF threshold (Except.error ()) setRes response = none) ∧
    (∀ (threshold : Nat) (freqRes : Except Unit (Option Nat)) (response : String),
        CacheF.cacheResponseF threshold freqRes (Except.error ()) response = none) := by
  refine ⟨?_, ?_, ?_, rfl, ?_, ?_⟩
  · intro threshold getJsonRes ht
    have h : CacheF.shouldUseCacheF threshold (Except.error ()) = false := by
      simp [CacheF.shouldUseCacheF, CacheF.freqOfGet]
      omega
    simp [CacheF.getCachedResponseF, h]
  · intro threshold freqRes
    by_cases h : CacheF.shouldUseCacheF threshold freqRes <;>
      simp [CacheF.getCachedResponseF, h]
  · intro expireRes
    rfl
  · intro threshold setRes response ht
    have h : CacheF.shouldUseCacheF threshold (Except.error ()) = false := by
      simp [CacheF.shouldUseCacheF, CacheF.freqOfGet]
      omega
    simp [CacheF.cacheResponseF, h]
  · intro threshold freqRes response
    by_cases h : CacheF.shouldUseCacheF threshold freqRes <;>
      simp [CacheF.cacheResponseF, h]

/-- C10, witness: the containment theorem applied at the default
threshold 5 with concrete backend outcomes. -/
theorem C10_witness :
    CacheF.getCachedResponseF 5 (Except.error ())
        (Except.ok (some { response := "cached" })) = none ∧
    CacheF.cacheResponseF 5 (Except.error ()) (Except.ok ()) "body" = none := by
  exact ⟨C10_cache_failures_contained.1 5 (Except.ok (some { response := "cached" })) (by decide),
         C10_cache_failures_contained.2.2.2.2.1 5 (Except.ok ()) "body" (by decide)⟩

namespace Diversify

lemma coherent_nil : coherent [] := by
  intro p hp
  exact absurd hp (List.not_mem_nil p)

lemma coherent_cons {k : Nat} {g : List RChunk} {rest : List (Nat × List RChunk)} :
    coherent ((k, g) :: rest) ↔ (∀ c ∈ g, c.1 = k) ∧ coherent rest := by
  constructor
  · intro h
    exact ⟨fun c hc => h (k, g) (List.mem_cons_self _ _) c hc,
           fun p hp c hc => h p (List.mem_cons_of_mem _ hp) c hc⟩
  · rintro ⟨h1, h2⟩ p hp c hc
    rcases List.mem_cons.mp hp with h | h
    · subst h; exact h1 c hc
    · exact h2 p h c hc

lemma addToGroup_coherent {l : List (Nat × List RChunk)} (hl : coherent l) (c : RChunk) :
    coherent (addToGroup l c) := by
  induction l with
  | nil =>
    refine coherent_cons.mpr ⟨?_, coherent_nil⟩
    intro c' hc'
    rcases List.mem_singleton.mp hc' with h
    subst h; rfl
  | cons q rest ih =>
    obtain ⟨k, g⟩ := q
    rcases coherent_cons.mp hl with ⟨hg, hrest⟩
    by_cases h : k = c.1
    · simp only [addToGroup, if_pos h]
      refine coherent_cons.mpr ⟨?_, hrest⟩
      intro c' hc'
      rcases List.mem_append.mp hc' with hmem | hmem
      · exact hg c' hmem
      · rcases List.mem_singleton.mp hmem with he
        subst he; exact h.symm
    · simp only [addToGroup, if_neg h]
      exact coherent_cons.mpr ⟨hg, ih hrest⟩

lemma foldl_addToGroup_coherent (results : List RChunk) :
    ∀ acc : List (Nat × List RChunk), coherent acc →
      coherent (results.foldl addToGroup acc) := by
  induction results with
  | nil => intro acc h; exact h
  | cons r rs ih =>
    intro acc h
    exact ih (addToGroup acc r) (addToGroup_coherent h r)

lemma groupByDoc_coherent (results : List RChunk) : coherent (groupByDoc results) :=
  foldl_addToGroup_coherent results [] coherent_nil

lemma countDoc_append_one (d : Nat) (l : List RChunk) (c : RChunk) :
    countDoc d (l ++ [c]) = countDoc d l + (if c.1 = d then 1 else 0) := by
  by_cases h : c.1 = d <;> simp [countDoc, List.filter_append, h]

lemma countDoc_take_le (d n : Nat) (l : List RChunk) :
    countDoc d (l.take n) ≤ countDoc d l :=
  List.Sublist.length_le (List.Sublist.filter _ (List.take_sublist n l))

lemma innerPass_invariant (mpd mt : Nat) :
    ∀ (byDoc : List (Nat × List RChunk)) (diverse : List RChunk),
      coherent byDoc → (∀ d, countDoc d diverse ≤ mpd) →
      coherent (innerPass mpd mt byDoc diverse).1 ∧
      (∀ d, countDoc d (innerPass mpd mt byDoc diverse).2 ≤ mpd) := by
  intro byDoc
  induction byDoc with
  | nil =>
    intro diverse hc hb
    exact ⟨hc, hb⟩
  | cons q rest ih =>
    obtain ⟨k, g⟩ := q
    intro diverse hc hb
    rcases coherent_cons.mp hc with ⟨hg, hrest⟩
    by_cases hfull : mt ≤ diverse.length
    · simp only [innerPass, if_pos hfull]
      exact ⟨hc, hb⟩
    · cases g with
      | nil =>
        cases hIP : innerPass mpd mt rest diverse with
        | mk r' d' =>
          have hih := ih diverse hrest hb
          rw [hIP] at hih
          simp only [innerPass, if_neg hfull, hIP]
          exact ⟨coherent_cons.mpr ⟨by intro c hc'; exact absurd hc' (List.not_mem_nil c), hih.1⟩,
                 hih.2⟩
      | cons c gs =>
        have hck : c.1 = k := hg c (List.mem_cons_self _ _)
        by_cases hcnt : countDoc k diverse < mpd
        · have hb2 : ∀ d, countDoc d (diverse ++ [c]) ≤ mpd := by
            intro d
            rw [countDoc_append_one]
            by_cases hd : c.1 = d
            · have hdk : d = k := hd ▸ hck
              subst hdk
              simp only [hd, if_pos]
              omega
            · simp only [if_neg hd, Nat.add_zero]
              exact hb d
          cases hIP : innerPass mpd mt rest (diverse ++ [c]) with
          | mk r' d' =>
            have hih := ih (diverse ++ [c]) hrest hb2
            rw [hIP] at hih
            simp only [innerPass, if_neg hfull, if_pos hcnt, hIP]
            refine ⟨coherent_cons.mpr ⟨?_, hih.1⟩, hih.2⟩
            intro c' hc'
            exact hg c' (List.mem_cons_of_mem _ hc')
        · cases hIP : innerPass mpd mt rest diverse with
          | mk r' d' =>
            have hih := ih diverse hrest hb
            rw [hIP] at hih
            simp only [innerPass, if_neg hfull, if_neg hcnt, hIP]
            exact ⟨coherent_cons.mpr ⟨hg, hih.1⟩, hih.2⟩

end Diversify

namespace Diversify

lemma diversifyFuel_bounds (mpd mt : Nat) :
    ∀ (fuel : Nat) (byDoc : List (Nat × List RChunk)) (diverse out : List RChunk),
      coherent byDoc → (∀ d, countDoc d diverse ≤ mpd) →
      diversifyFuel mpd mt fuel byDoc diverse = some out →
      out.length ≤ mt ∧ ∀ d, countDoc d out ≤ mpd := by
  intro fuel
  induction fuel with
  | zero =>
    intro byDoc diverse out _ _ h
    exact absurd h (by simp [diversifyFuel])
  | succ n ih =>
    intro byDoc diverse out hc hb hrun
    simp only [diversifyFuel] at hrun
    by_cases h1 : diverse.length < mt
    · by_cases h2 : anyNonempty byDoc = true
      · rw [if_pos h1, if_pos h2] at hrun
        cases hIP : innerPass mpd mt byDoc diverse with
        | mk b' d' =>
          rw [hIP] at hrun
          have hinv := innerPass_invariant mpd mt byDoc diverse hc hb
          rw [hIP] at hinv
          exact ih b' d' out hinv.1 hinv.2 hrun
      · rw [if_pos h1, if_neg h2] at hrun
        have hout : diverse.take mt = out := Option.some.inj hrun
        subst hout
        refine ⟨?_, fun d => Nat.le_trans (countDoc_take_le d mt diverse) (hb d)⟩
        simp [List.length_take]
    · rw [if_neg h1] at hrun
      have hout : diverse.take mt = out := Option.some.inj hrun
      subst hout
      refine ⟨?_, fun d => Nat.le_trans (countDoc_take_le d mt diverse) (hb d)⟩
      simp [List.length_take]

lemma diversifyFuel_stuck (mpd mt : Nat) (byDoc : List (Nat × List RChunk))
    (diverse : List RChunk)
    (hlen : diverse.length < mt) (hne : anyNonempty byDoc = true)
    (hfix : innerPass mpd mt byDoc diverse = (byDoc, diverse)) :
    ∀ n, diversifyFuel mpd mt n byDoc diverse = none := by
  intro n
  induction n with
  | zero => rfl
  | succ n ih =>
    have hstep : diversifyFuel mpd mt (n + 1) byDoc diverse =
        diversifyFuel mpd mt n byDoc diverse := by
      simp only [diversifyFuel, hfix]
      rw [if_pos hlen, if_pos hne]
    rw [hstep]
    exact ih

end Diversify

/-- C8, counterexample.  On a finite input (two namespaces with three
sorted chunks each) with `max-per-doc = 2` and `max-total = 8` the
diversification step returns nothing at all: once every namespace that
still holds chunks has contributed its two, no pass makes progress —
the reached state is a fixpoint of the pass with the loop guard still
true — so the `while` loop never exits (here witnessed by exhausting
100 rounds of fuel). -/
theorem C8_counterexample :
    Diversify.diversify 2 8 100 Diversify.hangTwo = none ∧
    Diversify.innerPass 2 8 [(0, [(0, 2)]), (1, [(1, 2)])]
        [(0, 0), (1, 0), (0, 1), (1, 1)] =
      ([(0, [(0, 2)]), (1, [(1, 2)])], [(0, 0), (1, 0), (0, 1), (1, 1)]) := by
  refine ⟨by decide, by decide⟩

/-- C8, amended.  Whenever the round-robin loop of
`GlobalQueryService._diversify` does terminate (any sufficient fuel),
its result contains at most `max-total` chunks with no namespace
contributing more than `max-per-doc`; the selection is the
deterministic insertion-order round-robin that pops each namespace's
first remaining chunk (the highest-scoring one, the input arriving
sorted by score descending).  The claim's universal "for every finite
list" fails only because of the non-termination shown in the
counterexample. -/
theorem C8_diversify_bounds (mpd mt fuel : Nat) (results out : List Diversify.RChunk)
    (d : Nat) (h : Diversify.diversify mpd mt fuel results = some out) :
    out.length ≤ mt ∧ Diversify.countDoc d out ≤ mpd := by
  have hb : ∀ d', Diversify.countDoc d' [] ≤ mpd := by
    intro d'
    simp [Diversify.countDoc]
  have hall := Diversify.diversifyFuel_bounds mpd mt fuel (Diversify.groupByDoc results) [] out
    (Diversify.groupByDoc_coherent results) hb h
  exact ⟨hall.1, hall.2 d⟩

/-- C8, witness: a one-chunk input on which the loop terminates, with
the bounds instantiated at the defaults `max-per-doc = 2`,
`max-total = 8`. -/
theorem C8_witness :
    ([((0 : Nat), (0 : Nat))] : List Diversify.RChunk).length ≤ 8 ∧
    Diversify.countDoc 0 [(0, 0)] ≤ 2 :=
  C8_diversify_bounds 2 8 2 [(0, 0)] [(0, 0)] 0 (by decide)

/-- C9.  The diversification loop does NOT terminate on the concrete
scenario named by the claim — three namespaces with three matching
chunks each, `max-per-doc = 2`, `max-total = 8`: after two passes every
namespace still holding chunks is at the cap while only six chunks were
gathered, the pass leaves the state unchanged, the guard
`len(diverse) < max_total and any(by_doc.values())` stays true, and the
loop runs forever (no amount of fuel makes it return). -/
theorem C9_diversify_loop_never_terminates (fuel : Nat) :
    Diversify.diversifyFuel 2 8 fuel (Diversify.groupByDoc Diversify.hangThree) [] = none := by
  have hg : Diversify.groupByDoc Diversify.hangThree =
      [(0, [(0, 0), (0, 1), (0, 2)]), (1, [(1, 0), (1, 1), (1, 2)]),
       (2, [(2, 0), (2, 1), (2, 2)])] := by decide
  rw [hg]
  match fuel with
  | 0 => rfl
  | 1 => rfl
  | (m + 2) =>
    have e1 : Diversify.diversifyFuel 2 8 (m + 2)
        [(0, [(0, 0), (0, 1), (0, 2)]), (1, [(1, 0), (1, 1), (1, 2)]),
         (2, [(2, 0), (2, 1), (2, 2)])] [] =
        Diversify.diversifyFuel 2 8 (m + 1)
        [(0, [(0, 1), (0, 2)]), (1, [(1, 1), (1, 2)]), (2, [(2, 1), (2, 2)])]
        [(0, 0), (1, 0), (2, 0)] := rfl
    have e2 : Diversify.diversifyFuel 2 8 (m + 1)
        [(0, [(0, 1), (0, 2)]), (1, [(1, 1), (1, 2)]), (2, [(2, 1), (2, 2)])]
        [(0, 0), (1, 0), (2, 0)] =
        Diversify.diversifyFuel 2 8 m
        [(0, [(0, 2)]), (1, [(1, 2)]), (2, [(2, 2)])]
        [(0, 0), (1, 0), (2, 0), (0, 1), (1, 1), (2, 1)] := rfl
    rw [e1, e2]
    exact Diversify.diversifyFuel_stuck 2 8 _ _ (by decide) (by decide) (by decide) m

namespace WorkerSched

lemma run_append (total : Nat) (xs ys : List Act) (s : SState) :
    run total (xs ++ ys) s = run total ys (run total xs s) := by
  simp [run, List.foldl_append]

lemma stepAct_sets_invariant (total : Nat) (s : SState) (a : Act)
    (h : s.effectiveSets = if s.statusCompleted then 1 else 0) :
    (stepAct total s a).effectiveSets =
      if (stepAct total s a).statusCompleted then 1 else 0 := by
  cases a with
  | increment d => simpa [stepAct] using h
  | setCompleted d =>
    by_cases hg : snapGuard total s d = true
    · by_cases hc : s.statusCompleted = true
      · simpa [stepAct, hg, hc] using h
      · have hc' : s.statusCompleted = false := by
          simp only [Bool.not_eq_true] at hc; exact hc
        have h0 : s.effectiveSets = 0 := by simpa [hc'] using h
        simp [stepAct, hg, hc', h0]
    · have hg' : snapGuard total s d = false := by
        simp only [Bool.not_eq_true] at hg; exact hg
      simpa [stepAct, hg'] using h
  | publishCompleted d =>
    by_cases hg : snapGuard total s d = true
    · simpa [stepAct, hg] using h
    · have hg' : snapGuard total s d = false := by
        simp only [Bool.not_eq_true] at hg; exact hg
      simpa [stepAct, hg'] using h

lemma run_sets_invariant (total : Nat) (acts : List Act) :
    ∀ s : SState, s.effectiveSets = (if s.statusCompleted then 1 else 0) →
      (run total acts s).effectiveSets =
        if (run total acts s).statusCompleted then 1 else 0 := by
  induction acts with
  | nil => intro s h; exact h
  | cons a rest ih =>
    intro s h
    have hstep : run total (a :: rest) s = run total rest (stepAct total s a) := rfl
    rw [hstep]
    exact ih _ (stepAct_sets_invariant total s a h)

lemma run_sets_le_one (total : Nat) (acts : List Act) :
    (run total acts initState).effectiveSets ≤ 1 := by
  have h := run_sets_invariant total acts initState (by rfl)
  rw [h]
  split <;> omega

lemma serial_step (total n : Nat) (s : SState)
    (hc : s.counter = n) (hs : s.statusCompleted = decide (total ≤ n))
    (he : s.effectiveSets = (if total ≤ n then 1 else 0))
    (hp : s.completionEvents = (if total ≤ n then 1 else 0))
    (hsn : ∀ d, n ≤ d → alookup d s.snaps = none) :
    (run total [Act.increment n, Act.setCompleted n, Act.publishCompleted n] s).counter = n + 1 ∧
    (run total [Act.increment n, Act.setCompleted n, Act.publishCompleted n] s).statusCompleted =
      decide (total ≤ n + 1) ∧
    (run total [Act.increment n, Act.setCompleted n, Act.publishCompleted n] s).effectiveSets =
      (if total ≤ n + 1 then 1 else 0) ∧
    (run total [Act.increment n, Act.setCompleted n, Act.publishCompleted n] s).completionEvents =
      (if total ≤ n + 1 then 1 else 0) ∧
    ∀ d, n + 1 ≤ d →
      alookup d (run total [Act.increment n, Act.setCompleted n, Act.publishCompleted n] s).snaps = none := by
  have hrun : run total [Act.increment n, Act.setCompleted n, Act.publishCompleted n] s =
      stepAct total (stepAct total (stepAct total s (Act.increment n)) (Act.setCompleted n))
        (Act.publishCompleted n) := rfl
  rw [hrun]
  set s1 := stepAct total s (Act.increment n) with hs1
  have h1c : s1.counter = s.counter + 1 := rfl
  have h1s : s1.statusCompleted = s.statusCompleted := rfl
  have h1e : s1.effectiveSets = s.effectiveSets := rfl
  have h1p : s1.completionEvents = s.completionEvents := rfl
  have h1sn : s1.snaps = (n, (s.counter + 1, s.statusCompleted)) :: s.snaps := rfl
  have hguard : snapGuard total s1 n = (decide (total ≤ n + 1) && !decide (total ≤ n)) := by
    simp [snapGuard, h1sn, alookup, hc, hs]
  have hlater : ∀ d, n + 1 ≤ d → alookup d s1.snaps = none := by
    intro d hd
    rw [h1sn]
    have hnd : ¬ (n = d) := by omega
    simp only [alookup]
    rw [if_neg hnd]
    exact hsn d (by omega)
  by_cases h1 : total ≤ n
  · -- the document was already completed before this delivery: both guards are false
    have hgd : snapGuard total s1 n = false := by rw [hguard]; simp [h1]
    have hset : stepAct total s1 (Act.setCompleted n) = s1 := by
      show (if snapGuard total s1 n then
              if s1.statusCompleted then s1
              else { s1 with statusCompleted := true, effectiveSets := s1.effectiveSets + 1 }
            else s1) = s1
      rw [hgd]
      simp
    rw [hset]
    have hpub : stepAct total s1 (Act.publishCompleted n) = s1 := by
      show (if snapGuard total s1 n then
              { s1 with completionEvents := s1.completionEvents + 1 }
            else s1) = s1
      rw [hgd]
      simp
    rw [hpub]
    have h1le : total ≤ n + 1 := Nat.le_succ_of_le h1
    refine ⟨by rw [h1c, hc], ?_, ?_, ?_, hlater⟩
    · rw [h1s, hs]; simp [h1, h1le]
    · rw [h1e, he]; simp [h1, h1le]
    · rw [h1p, hp]; simp [h1, h1le]
  · have hsf : s.statusCompleted = false := by simp [hs, h1]
    have h1sf : s1.statusCompleted = false := h1s.trans hsf
    by_cases h2 : total ≤ n + 1
    · -- the delivery whose increment reaches the total: transition and publish
      have hgd : snapGuard total s1 n = true := by rw [hguard]; simp [h1, h2]
      have hset : stepAct total s1 (Act.setCompleted n) =
          { s1 with statusCompleted := true, effectiveSets := s1.effectiveSets + 1 } := by
        show (if snapGuard total s1 n then
                if s1.statusCompleted then s1
                else { s1 with statusCompleted := true, effectiveSets := s1.effectiveSets + 1 }
              else s1) =
            { s1 with statusCompleted := true, effectiveSets := s1.effectiveSets + 1 }
        rw [hgd, h1sf]
        simp
      rw [hset]
      have hguard2 : snapGuard total
          ({ s1 with statusCompleted := true, effectiveSets := s1.effectiveSets + 1 } : SState) n =
          true := hgd
      have hpub : stepAct total
          ({ s1 with statusCompleted := true, effectiveSets := s1.effectiveSets + 1 } : SState)
          (Act.publishCompleted n) =
          { s1 with statusCompleted := true, effectiveSets := s1.effectiveSets + 1, completionEvents := s1.completionEvents + 1 } := by
        show (if snapGuard total
                ({ s1 with statusCompleted := true, effectiveSets := s1.effectiveSets + 1 } : SState) n
              then { s1 with statusCompleted := true, effectiveSets := s1.effectiveSets + 1, completionEvents := s1.completionEvents + 1 }
              else { s1 with statusCompleted := true, effectiveSets := s1.effectiveSets + 1 }) =
            ({ s1 with statusCompleted := true, effectiveSets := s1.effectiveSets + 1, completionEvents := s1.completionEvents + 1 } : SState)
        rw [hguard2]
        simp
      rw [hpub]
      have he0 : s.effectiveSets = 0 := by simp [he, h1]
      have hp0 : s.completionEvents = 0 := by simp [hp, h1]
      refine ⟨?_, ?_, ?_, ?_, hlater⟩
      · show s1.counter = n + 1
        rw [h1c, hc]
      · show true = decide (total ≤ n + 1)
        simp [h2]
      · show s1.effectiveSets + 1 = (if total ≤ n + 1 then 1 else 0)
        rw [h1e, he0]
        simp [h2]
      · show s1.completionEvents + 1 = (if total ≤ n + 1 then 1 else 0)
        rw [h1p, hp0]
        simp [h2]
    · -- not yet at the total: both guards are false
      have hgd : snapGuard total s1 n = false := by rw [hguard]; simp [h2]
      have hset : stepAct total s1 (Act.setCompleted n) = s1 := by
        show (if snapGuard total s1 n then
                if s1.statusCompleted then s1
                else { s1 with statusCompleted := true, effectiveSets := s1.effectiveSets + 1 }
              else s1) = s1
        rw [hgd]
        simp
      rw [hset]
      have hpub : stepAct total s1 (Act.publishCompleted n) = s1 := by
        show (if snapGuard total s1 n then
                { s1 with completionEvents := s1.completionEvents + 1 }
              else s1) = s1
        rw [hgd]
        simp
      rw [hpub]
      refine ⟨by rw [h1c, hc], ?_, ?_, ?_, hlater⟩
      · rw [h1s, hs]; simp [h1, h2]
      · rw [h1e, he]; simp [h1, h2]
      · rw [h1p, hp]; simp [h1, h2]

lemma serial_run (total : Nat) (ht : 1 ≤ total) (n : Nat) :
    (run total (serialSchedule n) initState).counter = n ∧
    (run total (serialSchedule n) initState).statusCompleted = decide (total ≤ n) ∧
    (run total (serialSchedule n) initState).effectiveSets = (if total ≤ n then 1 else 0) ∧
    (run total (serialSchedule n) initState).completionEvents = (if total ≤ n then 1 else 0) ∧
    ∀ d, n ≤ d → alookup d (run total (serialSchedule n) initState).snaps = none := by
  induction n with
  | zero =>
    have h0 : ¬ total ≤ 0 := by omega
    refine ⟨rfl, ?_, ?_, ?_, fun d _ => rfl⟩
    · simp [run, serialSchedule, initState, h0]
    · simp [run, serialSchedule, initState, h0]
    · simp [run, serialSchedule, initState, h0]
  | succ n ih =>
    obtain ⟨hc, hs, he, hp, hsn⟩ := ih
    have hsched : serialSchedule (n + 1) =
        serialSchedule n ++ [Act.increment n, Act.setCompleted n, Act.publishCompleted n] := rfl
    rw [hsched, run_append]
    exact serial_step total n (run total (serialSchedule n) initState) hc hs he hp hsn

end WorkerSched

/-- C5, counterexample.  A re-delivered chunk job for a document with
`total_chunks = 1`, processed by two overlapping deliveries: both
increments land before either delivery reaches its conditional status
update, so both snapshots read `processed ≥ total` with
`status ≠ completed` — the conditional database update still fires
effectively only once, but the final completed event is published by
BOTH deliveries.  The claim's "published exactly once across all
interleavings" is false. -/
theorem C5_counterexample :
    (WorkerSched.run 1 WorkerSched.raceSchedule WorkerSched.initState).completionEvents = 2 ∧
    (WorkerSched.run 1 WorkerSched.raceSchedule WorkerSched.initState).effectiveSets = 1 := by
  refine ⟨by decide, by decide⟩

/-- C5, amended.  For every document (`total_chunks = total ≥ 1`): in
EVERY interleaving of delivery steps the database transition to
`completed` is effective at most once (the `status ≠ completed` filter
on the conditional update); and when deliveries are processed serially
— each delivery's increment, conditional update and publish finishing
before the next delivery starts — the final completed event is
published exactly once, by the delivery whose increment reaches
`total`, even when re-deliveries make the number of deliveries exceed
`total`.  Under overlapping deliveries the event can be published more
than once (see the counterexample). -/
theorem C5_completion_once_serially_at_most_one_transition (total n : Nat)
    (ht : 1 ≤ total) :
    (∀ acts : List WorkerSched.Act,
        (WorkerSched.run total acts WorkerSched.initState).effectiveSets ≤ 1) ∧
    (total ≤ n →
        (WorkerSched.run total (WorkerSched.serialSchedule n)
            WorkerSched.initState).completionEvents = 1 ∧
        (WorkerSched.run total (WorkerSched.serialSchedule n)
            WorkerSched.initState).effectiveSets = 1) := by
  refine ⟨fun acts => WorkerSched.run_sets_le_one total acts, fun hn => ?_⟩
  obtain ⟨-, -, he, hp, -⟩ := WorkerSched.serial_run total ht n
  exact ⟨by rw [hp]; simp [hn], by rw [he]; simp [hn]⟩

/-- C5, witness: three serial deliveries (one a re-delivery) of the
chunks of a document with `total_chunks = 2` publish the completed
event exactly once and flip the status exactly once. -/
theorem C5_witness :
    (WorkerSched.run 2 (WorkerSched.serialSchedule 3)
        WorkerSched.initState).completionEvents = 1 ∧
    (WorkerSched.run 2 (WorkerSched.serialSchedule 3)
        WorkerSched.initState).effectiveSets = 1 :=
  (C5_completion_once_serially_at_most_one_transition 2 3 (by decide)).2 (by decide)
